import Mathlib

/-!
Verification of the candilib CSV / header-DSL core.

The development shallow-embeds the two source modules that the claims are
about:

* candicsv.js  — the CSV document (class CSV) and row expander (class CSVEntry);
* candiutil.js — the header template compiler (processHeaders) and the row
  assembler (putDataInObject), together with the batch driver
  (rowsToArrayOfObj).

JavaScript runtime values are modelled by the inductive JVal below.  Regular
expressions supplied by callers inside header templates are abstracted as
matcher functions (String to optional capture-group list), because the code
hands them verbatim to the host regex engine; the four fixed meta-regexes that
processHeaders itself uses are implemented concretely.  Fallible operations
(JS throw / process exit) are returned in Except.
-/

/-- A JavaScript runtime value as used by the candilib core: strings, numbers,
null, undefined, arrays and plain objects. -/
inductive JVal where
  | str : String → JVal
  | num : Int → JVal
  | null : JVal
  | undefined : JVal
  | arr : List JVal → JVal
  | obj : List (String × JVal) → JVal
deriving Repr

/-- JS truthiness: empty string, zero, null and undefined are falsy; arrays
and objects are always truthy. -/
def JVal.truthy : JVal → Bool
  | .str s => s ≠ ""
  | .num n => n ≠ 0
  | .null => false
  | .undefined => false
  | .arr _ => true
  | .obj _ => true

/-- Array.isArray. -/
def JVal.isArr : JVal → Bool
  | .arr _ => true
  | _ => false

/-- JS typeof v === "object" (true for null, arrays and plain objects). -/
def JVal.typeofObject : JVal → Bool
  | .null => true
  | .arr _ => true
  | .obj _ => true
  | _ => false

mutual
/-- JS string conversion, as performed by text += data in CSV.writeFile. -/
def jsToText : JVal → String
  | .str s => s
  | .num n => toString n
  | .null => "null"
  | .undefined => "undefined"
  | .obj _ => "[object Object]"
  | .arr vs => jsArrText vs

/-- JS Array.prototype.toString: elements joined by ",", with null and
undefined elements rendered as empty. -/
def jsArrText : List JVal → String
  | [] => ""
  | v :: rest =>
    (match v with
      | .null => ""
      | .undefined => ""
      | x => jsToText x)
    ++ (if rest.isEmpty then "" else ",") ++ jsArrText rest
end

/-- A JS object viewed as an ordered key/value list (property insertion
order, unique keys). -/
def Record := List (String × JVal)

/-- JS property write obj[k] = v: overwrite in place if the key exists,
otherwise append. -/
def setKV : List (String × JVal) → String → JVal → List (String × JVal)
  | [], k, v => [(k, v)]
  | (k1, v1) :: rest, k, v =>
    if k1 = k then (k1, v) :: rest else (k1, v1) :: setKV rest k v

/-- JS property read obj[k]: undefined when absent. -/
def recGet : List (String × JVal) → String → JVal
  | [], _ => .undefined
  | (k1, v1) :: rest, k => if k1 = k then v1 else recGet rest k

/-- JS sparse-array write a[i] = v: set in range, otherwise extend with
holes (undefined) up to index i. -/
def setPad (l : List JVal) (i : Nat) (v : JVal) : List JVal :=
  if i < l.length then l.set i v
  else l ++ List.replicate (i - l.length) .undefined ++ [v]

theorem recGet_setKV_self (d : List (String × JVal)) (k : String) (v : JVal) :
    recGet (setKV d k v) k = v := by
  induction d with
  | nil => simp [setKV, recGet]
  | cons p rest ih =>
    obtain ⟨k1, v1⟩ := p
    by_cases h : k1 = k <;> simp [setKV, recGet, h, ih]

theorem setKV_setKV (d : List (String × JVal)) (k : String) (a b : JVal) :
    setKV (setKV d k a) k b = setKV d k b := by
  induction d with
  | nil => simp [setKV]
  | cons p rest ih =>
    obtain ⟨k1, v1⟩ := p
    by_cases h : k1 = k <;> simp [setKV, h, ih]

/-! ## candicsv.js — CSV document and row expander -/

/-- Errors thrown by the CSV and assembler code.  The JS source throws plain
strings (and in one case calls process exit); each constructor stands for one
throw site. -/
inductive CsvError where
  | cardinalityError        -- CSV.addObject: key count differs from header count
  | unknownFieldError : String → CsvError  -- CSV.addObject: "Could not find header"
  | cannotAddObjectToCell   -- CSVEntry.add: "Cannot add object to cell"
  | expectedArray           -- CSVEntry ctor: "Expected array"
  | inputLengthError        -- CSVEntry ctor: "Input length ...; expected ..."
  | unrecognisedOption : String → CsvError -- CSV ctor: "Unrecognised option"
  | typeError               -- JS TypeError (missing method / null property access)
  | fatalExit               -- putDataInObject: process exit on transform mismatch
deriving Repr, DecidableEq

/-- What CSV.entries actually holds: addObject pushes a CSVEntry (headers plus
cell data), while addLine pushes the raw argument unchanged (see C9). -/
inductive EntryItem where
  | entry : List String → List JVal → EntryItem
  | rawLine : JVal → EntryItem
deriving Repr

/-- The CSV class: headers, accumulated entries, formatting options. -/
structure CSVDoc where
  headers : List String
  entries : List EntryItem := []
  qualifier : String := "\""
  delimeter : String := ","

/-- The options loop of the CSV constructor. -/
def applyOpts (doc : CSVDoc) : List (String × String) → Except CsvError CSVDoc
  | [] => .ok doc
  | (k, v) :: rest =>
    if k.toLower = "qualifier" then applyOpts { doc with qualifier := v } rest
    else if k.toLower = "delimiter" then applyOpts { doc with delimeter := v } rest
    else .error (.unrecognisedOption k)

/-- new CSV(headers, options) with an explicit header array. -/
def csvNew (headersIn : List String) (options : List (String × String)) :
    Except CsvError CSVDoc :=
  applyOpts { headers := headersIn } options

/-- CSVEntry.add(header, value).  typeof value === "object" together with
!Array.isArray(value) (true for plain objects and for null) throws "Cannot add
object to cell".  The indexOf guard in the source can never fire (its
condition !index && index !== 0 is false for every number), so a lookup is
modelled by List.findIdx; all callers guarantee the header is present. -/
def entryAdd (headers : List String) (data : List JVal) (key : String)
    (value : JVal) : Except CsvError (List JVal) :=
  if value.typeofObject && !value.isArr then .error .cannotAddObjectToCell
  else
    let index := headers.findIdx (· = key)
    let old := data.getD index .undefined
    if old.truthy then
      match old with
      | .arr vs => .ok (setPad data index (.arr (vs ++ [value])))
      | _ => .ok (setPad data index (.arr [old, value]))
    else .ok (setPad data index value)

/-- The key loop of CSV.addObject: per key, first the headers-membership
check, then CSVEntry.add into the fresh row. -/
def addAll (headers : List String) (data : List JVal) :
    List (String × JVal) → Except CsvError (List JVal)
  | [] => .ok data
  | (k, v) :: rest =>
    if k ∈ headers then
      match entryAdd headers data k v with
      | .error e => .error e
      | .ok data1 => addAll headers data1 rest
    else .error (.unknownFieldError k)

/-- CSV.addObject.  The model takes the object as its ordered key/value list
(JS object keys are unique and enumerate in insertion order).  When the key
count mismatches, the source throws while building its message (the message
itself reads a bare undefined variable, but either way an exception leaves
addObject here with nothing appended). -/
def addObject (doc : CSVDoc) (kvs : List (String × JVal)) :
    Except CsvError CSVDoc :=
  if kvs.length ≠ doc.headers.length then .error .cardinalityError
  else
    match addAll doc.headers [] kvs with
    | .error e => .error e
    | .ok data => .ok { doc with entries := doc.entries ++ [.entry doc.headers data] }

/-- CSV.addLine: validates the argument by constructing a CSVEntry (whose
constructor returns early on a falsy argument, throws "Expected array" on a
non-array, and checks the length), then pushes the RAW argument — not the
entry — onto entries. -/
def addLine (doc : CSVDoc) (line : JVal) : Except CsvError CSVDoc :=
  if !line.truthy then
    .ok { doc with entries := doc.entries ++ [.rawLine line] }
  else
    match line with
    | .arr vs =>
      if vs.length ≠ doc.headers.length then .error .inputLengthError
      else .ok { doc with entries := doc.entries ++ [.rawLine (.arr vs)] }
    | _ => .error .expectedArray

/-! ### CSVEntry.getOutputRows -/

/-- The first pass of getOutputRows: longest starts at 1 and is raised to the
length of every array-valued cell. -/
def longestOf (data : List JVal) : Nat :=
  data.foldl
    (fun acc c => match c with
      | .arr vs => max acc vs.length
      | _ => acc) 1

/-- The inner while loop: index of the first row whose slot at this column is
falsy (out-of-range reads give undefined, which is falsy). -/
def firstOpenRow : List (List JVal) → Nat → Option Nat
  | [], _ => none
  | row :: rest, col =>
    if (row.getD col .undefined).truthy then (firstOpenRow rest col).map (· + 1)
    else some 0

/-- Place one list element into the lowest row whose slot in this column is
falsy (output[index][col] = colData[x]).  When every slot is truthy the JS
while loop would run off the grid and fault; that situation is unreachable for
grids of height longestOf data, and is modelled as a no-op. -/
def placeOne (out : List (List JVal)) (col : Nat) (v : JVal) : List (List JVal) :=
  match firstOpenRow out col with
  | some r => out.set r ((out.getD r []).set col v)
  | none => out

/-- Walk an array-valued cell in order, gravity-filling its column. -/
def placeList (out : List (List JVal)) (col : Nat) (vs : List JVal) :
    List (List JVal) :=
  vs.foldl (fun o v => placeOne o col v) out

/-- The per-column loop of getOutputRows: scalars go to row 0 unconditionally,
arrays gravity-fill their column. -/
def fillCols : List JVal → Nat → List (List JVal) → List (List JVal)
  | [], _, out => out
  | c :: rest, col, out =>
    match c with
    | .arr vs => fillCols rest (col + 1) (placeList out col vs)
    | v => fillCols rest (col + 1) (out.set 0 ((out.getD 0 []).set col v))

/-- CSVEntry.getOutputRows: allocate longest rows pre-filled with "" per
header, then fill column by column. -/
def getOutputRows (headers : List String) (data : List JVal) :
    List (List JVal) :=
  fillCols data 0
    (List.replicate (longestOf data) (List.replicate headers.length (JVal.str "")))

/-! ### CSV.writeFile serialization -/

/-- The condition (data === null || !data) && data !== 0 from writeFile:
such values contribute empty text. -/
def serEmpty : JVal → Bool
  | .null => true
  | .undefined => true
  | .str s => s = ""
  | .num _ => false  -- zero is excluded by data !== 0; other numbers are truthy
  | .arr _ => false
  | .obj _ => false

/-- One serialized field: qualifier (when non-empty), the text, qualifier. -/
def fieldText (q : String) (v : JVal) : String :=
  (if q ≠ "" then q else "") ++ (if serEmpty v then "" else jsToText v)
    ++ (if q ≠ "" then q else "")

/-- One serialized row: fields joined by the delimiter (the source appends the
delimiter for every column except the last). -/
def rowText (q d : String) (row : List JVal) : String :=
  String.intercalate d (row.map (fieldText q))

/-- All rows joined by newline, no trailing newline after the final row. -/
def serializeLines (q d : String) (lines : List (List JVal)) : String :=
  String.intercalate "\n" (lines.map (rowText q d))

/-- The entry loop of writeFile: each item must answer getOutputRows.  Raw
values pushed by addLine have no such method — calling it is a TypeError. -/
def entryRows : EntryItem → Except CsvError (List (List JVal))
  | .entry hs data => .ok (getOutputRows hs data)
  | .rawLine _ => .error .typeError

/-- lines = [headers]; lines = lines.concat(entry.getOutputRows()) per entry. -/
def collectRows : List EntryItem → Except CsvError (List (List JVal))
  | [] => .ok []
  | e :: rest =>
    match entryRows e with
    | .error err => .error err
    | .ok rs =>
      match collectRows rest with
      | .error err => .error err
      | .ok rss => .ok (rs ++ rss)

/-- CSV.writeFile, minus the filesystem write: the produced text. -/
def writeFile (doc : CSVDoc) : Except CsvError String :=
  match collectRows doc.entries with
  | .error e => .error e
  | .ok rows =>
    .ok (serializeLines doc.qualifier doc.delimeter
      ((doc.headers.map JVal.str) :: rows))

/-! ## candiutil.js — header template compiler and row assembler

Caller-supplied regex sources inside a template are handed verbatim to the
host regex engine (new RegExp).  That engine is abstracted by a Matcher: the
result of String.prototype.match with a non-global regex, i.e. none for no
match, or the array of the whole match and the capture groups (a group that
did not participate is none).  Likewise String.prototype.split with a regex
delimiter is abstracted as a splitter function. -/

/-- Abstracted compiled regex: data.match(re). -/
def Matcher := String → Option (List (Option String))

/-- The host regex engine, abstracted: compile a pattern source into a
matcher, or into a splitter for String.prototype.split. -/
structure RegexEngine where
  compile : String → Matcher
  compileSplit : String → String → List String

/-! ### The four fixed meta-regexes of processHeaders

Each has the shape (.+?)OPEN(.+?)CLOSE for a two-character literal OPEN and
CLOSE, matched by the JS engine with leftmost start and lazy groups, where the
dot excludes line terminators.  Concretely the match succeeds at the smallest
index i of OPEN that is preceded by at least one dot character and followed
(after OPEN) by at least one dot character and then CLOSE; group 1 is the
maximal run of dot characters ending just before that OPEN, and group 2 is the
minimal nonempty dot run after OPEN that is followed by CLOSE. -/

/-- Characters matched by the regex dot (no line terminators). -/
def dotChar (ch : Char) : Bool :=
  ch ≠ '\n' && ch ≠ '\r' && ch.toNat ≠ 0x2028 && ch.toNat ≠ 0x2029

/-- Lazy search for group 2: stop at the first occurrence of the closing
literal once at least one character has been taken. -/
def scanClose (cd : List Char) : List Char → List Char → Option (List Char)
  | acc, rem =>
    if acc ≠ [] && List.isPrefixOf cd rem then some acc
    else
      match rem with
      | [] => none
      | ch :: rest => if dotChar ch then scanClose cd (acc ++ [ch]) rest else none

/-- Scan for the first opening literal that is preceded by a dot run and
admits a closing literal; returns (prefix before the match, group 1, group 2,
rest after the match). -/
def pairScan (od cd : List Char) :
    List Char → List Char → List Char → Option (List Char × List Char × List Char × List Char)
  | pre, acc, [] =>
    let _ := pre
    let _ := acc
    none
  | pre, acc, ch :: rest =>
    if acc ≠ [] && List.isPrefixOf od (ch :: rest) then
      match scanClose cd [] ((ch :: rest).drop od.length) with
      | some g2 =>
        some (pre, acc, g2, (ch :: rest).drop (od.length + g2.length + cd.length))
      | none =>
        if dotChar ch then pairScan od cd pre (acc ++ [ch]) rest
        else pairScan od cd (pre ++ acc ++ [ch]) [] rest
    else
      if dotChar ch then pairScan od cd pre (acc ++ [ch]) rest
      else pairScan od cd (pre ++ acc ++ [ch]) [] rest

/-- header.match(re) for one of the four fixed meta-regexes, returning
(prefix, group 1, group 2, suffix) of the leftmost lazy match. -/
def jsMatchPair (od cd : String) (s : String) :
    Option (String × String × String × String) :=
  match pairScan od.toList cd.toList [] [] s.toList with
  | some (pre, g1, g2, rest) =>
    some (String.mk pre, String.mk g1, String.mk g2, String.mk rest)
  | none => none

/-- header.replace(re, ""): drop the matched span, keep prefix and suffix. -/
def replaceFirstPair (od cd : String) (s : String) : String :=
  match jsMatchPair od cd s with
  | some (pre, _, _, rest) => pre ++ rest
  | none => s

/-! ### Compiled header objects -/

/-- The type tag written into a header object by processHeaders. -/
inductive HType where
  | transform
  | multi
  | split
  | norm
deriving Repr, DecidableEq

/-- A compiled header object.  The JS object carries only the fields its type
needs; here absent fields keep inert defaults.  map is the independently
recognized map pattern. -/
structure HeaderObj where
  type : HType
  header : String := ""
  transform : Matcher := fun _ => none
  dataRegex : Matcher := fun _ => none
  headers : List String := []
  delim : String → List String := fun s => [s]
  map : Option Matcher := none

/-- processHeaders, per non-null template.  The map pattern is tested and
attached first, independently of the type; then the type is resolved by the
if/else chain transform, multi, split, norm.  Both match length checks in the
source (matches.length === 3) always hold for these regexes and are omitted. -/
def processHeader (eng : RegexEngine) (header : String) : HeaderObj :=
  let multiMatch := jsMatchPair "[[" "]]" header
  let splitMatch := jsMatchPair "\x7b\x7b" "\x7d\x7d" header
  let mapMatch := jsMatchPair "<<" ">>" header
  let transformMatch := jsMatchPair "//" "\\\\" header
  let base : HeaderObj :=
    match mapMatch with
    | some (_, _, g2, _) => { type := .norm, map := some (eng.compile g2) }
    | none => { type := .norm }
  match transformMatch with
  | some (_, g1, g2, _) =>
    { base with type := .transform, transform := eng.compile g2, header := g1 }
  | none =>
    match multiMatch with
    | some (_, g1, g2, _) =>
      { base with
        type := .multi,
        dataRegex := eng.compile g2,
        headers := (replaceFirstPair "[[" "]]" g1).splitOn ",," }
    | none =>
      match splitMatch with
      | some (_, g1, g2, _) =>
        { base with type := .split, header := g1, delim := eng.compileSplit g2 }
      | none => { base with type := .norm, header := header }

/-- processHeaders over a header list with null placeholders. -/
def processHeaders (eng : RegexEngine) (headers : List (Option String)) :
    List (Option HeaderObj) :=
  headers.map (fun h => h.map (processHeader eng))

/-! ### putDataInObject -/

/-- Capture-group value as stored into a record: a group that did not
participate is undefined. -/
def gval : Option String → JVal
  | some s => .str s
  | none => .undefined

/-- A capture-group value used as a JS property key: undefined coerces to the
string "undefined". -/
def keyOf : Option String → String
  | some s => s
  | none => "undefined"

/-- The multi loop: for x in 0..headers.length-1, read matches[x+1].  When the
cell did not match, matches is null and the first read throws a TypeError. -/
def multiLoop (ms : Option (List (Option String))) :
    List String → Nat → Record → Except CsvError Record
  | [], _, dest => .ok dest
  | n :: rest, gi, dest =>
    match ms with
    | none => .error .typeError
    | some gs => multiLoop ms rest (gi + 1) (setKV dest n (gval (gs.getD gi none)))

/-- destObj[name][key] = v in the split+map loop.  The base destObj[name] is
an object ({} or the accumulated mapping) on every path reachable from the
split branch; a primitive base would be a strict-mode TypeError, and an array
base would take a non-index property invisible to this model. -/
def mapInsert (dest : Record) (name key : String) (v : JVal) :
    Except CsvError Record :=
  match recGet dest name with
  | .obj kvs => .ok (setKV dest name (.obj (setKV kvs key v)))
  | .arr vs => .ok (setKV dest name (.arr vs))
  | _ => .error .typeError

/-- The split+map loop over the fragments: a matching fragment inserts
(group 1, group 2); the first non-matching fragment assigns the raw split
list (the full one) and stops. -/
def splitMapLoop (mf : Matcher) (name : String) (full : List String) :
    List String → Record → Except CsvError Record
  | [], dest => .ok dest
  | p :: rest, dest =>
    match mf p with
    | some gs =>
      match mapInsert dest name (keyOf (gs.getD 1 none)) (gval (gs.getD 2 none)) with
      | .error e => .error e
      | .ok dest1 => splitMapLoop mf name full rest dest1
    | none => .ok (setKV dest name (.arr (full.map JVal.str)))

/-- The body of putDataInObject's per-column switch.  transform: a non-match
prints an error and calls process exit (modelled as the fatalExit error); a
match stores capture group 1.  multi: see multiLoop.  split: split the cell,
then either store the raw list, or run the map loop after seeding
destObj[name] with {} when it is falsy.  norm: store the cell. -/
def applyHeader (data : String) (h : HeaderObj) (dest : Record) :
    Except CsvError Record :=
  match h.type with
  | .transform =>
    match h.transform data with
    | none => .error .fatalExit
    | some gs => .ok (setKV dest h.header (gval (gs.getD 1 none)))
  | .multi => multiLoop (h.dataRegex data) h.headers 1 dest
  | .split =>
    let parts := h.delim data
    match h.map with
    | none => .ok (setKV dest h.header (.arr (parts.map JVal.str)))
    | some mf =>
      let dest1 :=
        if (recGet dest h.header).truthy then dest
        else setKV dest h.header (.obj [])
      splitMapLoop mf h.header parts parts dest1
  | .norm => .ok (setKV dest h.header (.str data))

/-- putDataInObject: walk the cells by index; a missing or null header object
skips the column (both are falsy).  The commented-out length check in the
source does nothing. -/
def putDataInObject : List String → List (Option HeaderObj) → Record →
    Except CsvError Record
  | [], _, dest => .ok dest
  | d :: rest, specs, dest =>
    match specs.headD none with
    | none => putDataInObject rest specs.tail dest
    | some h =>
      match applyHeader d h dest with
      | .error e => .error e
      | .ok dest1 => putDataInObject rest specs.tail dest1

/-- rowsToArrayOfObj over already-extracted cell rows: each row is assembled
into a fresh object; a fatal error while assembling any row aborts the whole
batch with no output. -/
def rowsToArrayOfObj (rows : List (List String))
    (specs : List (Option HeaderObj)) : Except CsvError (List Record) :=
  match rows with
  | [] => .ok []
  | r :: rest =>
    match putDataInObject r specs [] with
    | .error e => .error e
    | .ok o =>
      match rowsToArrayOfObj rest specs with
      | .error e => .error e
      | .ok os => .ok (o :: os)

/-! ### Compiled-spec shapes, as produced by processHeader -/

/-- A compiled Transform header object. -/
def transformSpec (name : String) (m : Matcher) : HeaderObj :=
  { type := .transform, header := name, transform := m }

/-- A compiled Multi header object. -/
def multiSpec (names : List String) (m : Matcher) : HeaderObj :=
  { type := .multi, headers := names, dataRegex := m }

/-- A compiled Split header object, with or without a map pattern. -/
def splitSpec (name : String) (d : String → List String) (mp : Option Matcher) :
    HeaderObj :=
  { type := .split, header := name, delim := d, map := mp }

/-- The record updates of a successful multi match: names[i] receives capture
group gi + i. -/
def assignGroups (gs : List (Option String)) :
    List String → Nat → Record → Record
  | [], _, dest => dest
  | n :: rest, gi, dest => assignGroups gs rest (gi + 1) (setKV dest n (gval (gs.getD gi none)))

/-- The mapping accumulated by the split+map loop when every fragment
matches: per fragment, key group 1, value group 2, later keys overwriting. -/
def buildMapKVs (mf : Matcher) (parts : List String) : List (String × JVal) :=
  parts.foldl
    (fun kvs p =>
      match mf p with
      | some gs => setKV kvs (keyOf (gs.getD 1 none)) (gval (gs.getD 2 none))
      | none => kvs) []

/-! ## List helper lemmas -/

theorem getD_set_self {α : Type} (l : List α) (i : Nat) (v d : α)
    (h : i < l.length) : (l.set i v).getD i d = v := by
  induction l generalizing i with
  | nil => simp at h
  | cons a t ih =>
    cases i with
    | zero => simp
    | succ n => simpa using ih n (by simpa using h)

theorem getD_set_ne {α : Type} (l : List α) (i j : Nat) (v d : α)
    (h : i ≠ j) : (l.set i v).getD j d = l.getD j d := by
  induction l generalizing i j with
  | nil => simp
  | cons a t ih =>
    cases i with
    | zero =>
      cases j with
      | zero => exact absurd rfl h
      | succ m => simp
    | succ n =>
      cases j with
      | zero => simp
      | succ m => simpa using ih n m (by omega)

theorem map_set {α β : Type} (f : α → β) (l : List α) (i : Nat) (v : α) :
    (l.set i v).map f = (l.map f).set i (f v) := by
  induction l generalizing i with
  | nil => simp
  | cons a t ih =>
    cases i with
    | zero => simp
    | succ n => simp [ih n]

theorem getD_mem {α : Type} (l : List α) (i : Nat) (d : α)
    (h : i < l.length) : l.getD i d ∈ l := by
  induction l generalizing i with
  | nil => simp at h
  | cons a t ih =>
    cases i with
    | zero => simp
    | succ n => simpa using Or.inr (ih n (by simpa using h))

theorem getD_map_of_lt {α β : Type} (f : α → β) (l : List α) (i : Nat)
    (d : β) (d0 : α) (h : i < l.length) :
    (l.map f).getD i d = f (l.getD i d0) := by
  induction l generalizing i with
  | nil => simp at h
  | cons a t ih =>
    cases i with
    | zero => simp
    | succ n => simpa using ih n (by simpa using h)

theorem set_getD_self {α : Type} (l : List α) (i : Nat) (d : α) :
    l.set i (l.getD i d) = l := by
  induction l generalizing i with
  | nil => simp
  | cons a t ih =>
    cases i with
    | zero => simp
    | succ n => simpa using ih n

theorem mem_set_sub {α : Type} (l : List α) (i : Nat) (v x : α)
    (h : x ∈ l.set i v) : x = v ∨ x ∈ l := by
  induction l generalizing i with
  | nil => simp at h
  | cons a t ih =>
    cases i with
    | zero =>
      rcases (by simpa using h) with h1 | h1
      · exact Or.inl h1
      · exact Or.inr (by simp [h1])
    | succ n =>
      rcases (by simpa using h : x = a ∨ x ∈ t.set n v) with h1 | h1
      · exact Or.inr (by simp [h1])
      · rcases ih n h1 with h2 | h2
        · exact Or.inl h2
        · exact Or.inr (by simp [h2])

theorem getD_replicate_of_lt {α : Type} (n i : Nat) (a d : α)
    (h : i < n) : (List.replicate n a).getD i d = a := by
  induction n generalizing i with
  | zero => omega
  | succ m ih =>
    cases i with
    | zero => simp [List.replicate]
    | succ k => simpa [List.replicate] using ih k (by omega)

/-! ## The column view of the output grid -/

/-- The values of one column across the output rows (out-of-range slots read
as undefined, exactly as the source's output[r][col] would). -/
def colAt (out : List (List JVal)) (c : Nat) : List JVal :=
  out.map (fun r => r.getD c .undefined)

/-- One-dimensional view of the while loop of getOutputRows. -/
def firstFalsy : List JVal → Option Nat
  | [] => none
  | v :: rest => if v.truthy then (firstFalsy rest).map (· + 1) else some 0

/-- One-dimensional view of a single gravity placement. -/
def gplace (cv : List JVal) (v : JVal) : List JVal :=
  match firstFalsy cv with
  | some r => cv.set r v
  | none => cv

theorem firstOpenRow_eq_firstFalsy (out : List (List JVal)) (c : Nat) :
    firstOpenRow out c = firstFalsy (colAt out c) := by
  induction out with
  | nil => rfl
  | cons row rest ih => simp [firstOpenRow, firstFalsy, colAt, ih]

theorem firstFalsy_lt (cv : List JVal) (r : Nat)
    (h : firstFalsy cv = some r) : r < cv.length := by
  induction cv generalizing r with
  | nil => simp [firstFalsy] at h
  | cons v rest ih =>
    by_cases hv : v.truthy
    · simp [firstFalsy, hv] at h
      obtain ⟨r1, hr1, hr⟩ := h
      have := ih r1 hr1
      simp [← hr]
      omega
    · simp [firstFalsy, hv] at h
      simp [List.length_cons]
      omega

theorem colAt_length (out : List (List JVal)) (c : Nat) :
    (colAt out c).length = out.length := by
  simp [colAt]

theorem placeOne_length (out : List (List JVal)) (c : Nat) (v : JVal) :
    (placeOne out c v).length = out.length := by
  unfold placeOne
  cases firstOpenRow out c <;> simp

theorem placeOne_widths (out : List (List JVal)) (c : Nat) (v : JVal)
    (W : Nat) (hW : ∀ row ∈ out, row.length = W) :
    ∀ row ∈ placeOne out c v, row.length = W := by
  unfold placeOne
  cases h : firstOpenRow out c with
  | none => exact hW
  | some r =>
    intro row hrow
    rcases mem_set_sub _ _ _ _ hrow with h1 | h1
    · subst h1
      rw [List.length_set]
      have hr : r < out.length := by
        have := firstFalsy_lt (colAt out c) r (by rw [← firstOpenRow_eq_firstFalsy, h])
        simpa [colAt_length] using this
      exact hW _ (getD_mem out r [] hr)
    · exact hW _ h1

theorem placeOne_colAt_self (out : List (List JVal)) (c : Nat) (v : JVal)
    (W : Nat) (hW : ∀ row ∈ out, row.length = W) (hc : c < W) :
    colAt (placeOne out c v) c = gplace (colAt out c) v := by
  unfold placeOne gplace
  rw [firstOpenRow_eq_firstFalsy]
  cases h : firstFalsy (colAt out c) with
  | none => rfl
  | some r =>
    have hr : r < out.length := by
      have := firstFalsy_lt (colAt out c) r h
      simpa [colAt_length] using this
    have hrow : out.getD r [] ∈ out := getD_mem out r [] hr
    have hlen : c < (out.getD r []).length := by rw [hW _ hrow]; exact hc
    simp only [colAt, map_set]
    rw [getD_set_self _ _ _ _ hlen]

theorem placeOne_colAt_ne (out : List (List JVal)) (c c1 : Nat) (v : JVal)
    (hne : c1 ≠ c) : colAt (placeOne out c v) c1 = colAt out c1 := by
  unfold placeOne
  cases h : firstOpenRow out c with
  | none => rfl
  | some r =>
    have hr : r < out.length := by
      have := firstFalsy_lt (colAt out c) r (by rw [← firstOpenRow_eq_firstFalsy, h])
      simpa [colAt_length] using this
    simp only [colAt, map_set]
    rw [getD_set_ne _ _ _ _ _ (fun hcc => hne hcc.symm)]
    have : (out.map (fun r => r.getD c1 JVal.undefined)).getD r JVal.undefined
        = (out.getD r []).getD c1 JVal.undefined := getD_map_of_lt _ _ _ _ _ hr
    calc (out.map (fun r => r.getD c1 JVal.undefined)).set r ((out.getD r []).getD c1 JVal.undefined)
      = (out.map (fun r => r.getD c1 JVal.undefined)).set r
          ((out.map (fun r => r.getD c1 JVal.undefined)).getD r JVal.undefined) := by rw [this]
    _ = out.map (fun r => r.getD c1 JVal.undefined) := set_getD_self _ _ _

theorem placeList_widths (vs : List JVal) (out : List (List JVal)) (c : Nat)
    (W : Nat) (hW : ∀ row ∈ out, row.length = W) :
    ∀ row ∈ placeList out c vs, row.length = W := by
  induction vs generalizing out with
  | nil => exact hW
  | cons v rest ih =>
    simpa [placeList] using ih (placeOne out c v) (placeOne_widths out c v W hW)

theorem placeList_length (vs : List JVal) (out : List (List JVal)) (c : Nat) :
    (placeList out c vs).length = out.length := by
  induction vs generalizing out with
  | nil => rfl
  | cons v rest ih =>
    simp [placeList] at ih ⊢
    rw [ih (placeOne out c v), placeOne_length]

theorem placeList_colAt_self (vs : List JVal) (out : List (List JVal))
    (c W : Nat) (hW : ∀ row ∈ out, row.length = W) (hc : c < W) :
    colAt (placeList out c vs) c = vs.foldl gplace (colAt out c) := by
  induction vs generalizing out with
  | nil => rfl
  | cons v rest ih =>
    have h1 := ih (placeOne out c v) (placeOne_widths out c v W hW)
    simp [placeList] at h1 ⊢
    rw [h1, placeOne_colAt_self out c v W hW hc]

theorem placeList_colAt_ne (vs : List JVal) (out : List (List JVal))
    (c c1 : Nat) (hne : c1 ≠ c) :
    colAt (placeList out c vs) c1 = colAt out c1 := by
  induction vs generalizing out with
  | nil => rfl
  | cons v rest ih =>
    have h1 := ih (placeOne out c v)
    simp [placeList] at h1 ⊢
    rw [h1, placeOne_colAt_ne out c c1 v hne]

/-- The scalar branch of the column loop: output[0][col] = colData. -/
def scalarStep (out : List (List JVal)) (c : Nat) (v : JVal) :
    List (List JVal) :=
  out.set 0 ((out.getD 0 []).set c v)

theorem scalarStep_widths (out : List (List JVal)) (c : Nat) (v : JVal)
    (W : Nat) (hW : ∀ row ∈ out, row.length = W) :
    ∀ row ∈ scalarStep out c v, row.length = W := by
  cases out with
  | nil => intro row hrow; simp [scalarStep] at hrow
  | cons r0 rest =>
    intro row hrow
    rcases mem_set_sub _ _ _ _ hrow with h1 | h1
    · subst h1
      rw [List.length_set]
      exact hW r0 (by simp)
    · exact hW _ h1

theorem scalarStep_length (out : List (List JVal)) (c : Nat) (v : JVal) :
    (scalarStep out c v).length = out.length := by
  simp [scalarStep]

theorem scalarStep_colAt_self (out : List (List JVal)) (c : Nat) (v : JVal)
    (W : Nat) (hW : ∀ row ∈ out, row.length = W) (hc : c < W) :
    colAt (scalarStep out c v) c = (colAt out c).set 0 v := by
  cases out with
  | nil => rfl
  | cons r0 rest =>
    have hlen : c < r0.length := by rw [hW r0 (by simp)]; exact hc
    simp only [scalarStep, colAt, map_set]
    have h0 : (r0 :: rest).getD 0 [] = r0 := rfl
    rw [h0, getD_set_self r0 c v JVal.undefined hlen]

theorem scalarStep_colAt_ne (out : List (List JVal)) (c c1 : Nat) (v : JVal)
    (hne : c1 ≠ c) : colAt (scalarStep out c v) c1 = colAt out c1 := by
  cases out with
  | nil => rfl
  | cons r0 rest =>
    simp only [scalarStep, colAt, map_set]
    have h0 : (r0 :: rest).getD 0 [] = r0 := rfl
    rw [h0, getD_set_ne r0 c c1 v JVal.undefined (fun hcc => hne hcc.symm)]
    have h1 : ((r0 :: rest).map (fun r => r.getD c1 JVal.undefined)).getD 0 JVal.undefined
        = r0.getD c1 JVal.undefined := rfl
    rw [← h1, set_getD_self]

/-- The effect of one column's cell on its own column view. -/
def colEffect (cell : JVal) (cv : List JVal) : List JVal :=
  match cell with
  | .arr vs => vs.foldl gplace cv
  | v => cv.set 0 v

theorem fillCols_widths (data : List JVal) (col : Nat)
    (out : List (List JVal)) (W : Nat) (hW : ∀ row ∈ out, row.length = W) :
    ∀ row ∈ fillCols data col out, row.length = W := by
  induction data generalizing col out with
  | nil => exact hW
  | cons cell rest ih =>
    cases cell with
    | arr vs => exact ih (col + 1) _ (placeList_widths vs out col W hW)
    | str s => exact ih (col + 1) _ (scalarStep_widths out col _ W hW)
    | num n => exact ih (col + 1) _ (scalarStep_widths out col _ W hW)
    | null => exact ih (col + 1) _ (scalarStep_widths out col _ W hW)
    | undefined => exact ih (col + 1) _ (scalarStep_widths out col _ W hW)
    | obj kvs => exact ih (col + 1) _ (scalarStep_widths out col _ W hW)

theorem fillCols_length (data : List JVal) (col : Nat)
    (out : List (List JVal)) : (fillCols data col out).length = out.length := by
  induction data generalizing col out with
  | nil => rfl
  | cons cell rest ih =>
    cases cell
    case arr vs => rw [fillCols, ih, placeList_length]
    all_goals rw [fillCols, ih, List.length_set]
    all_goals intro a h
    all_goals exact JVal.noConfusion h

theorem fillCols_colAt_lt (data : List JVal) (col c : Nat)
    (out : List (List JVal)) (hlt : c < col) :
    colAt (fillCols data col out) c = colAt out c := by
  induction data generalizing col out with
  | nil => rfl
  | cons cell rest ih =>
    have hne : c ≠ col := by omega
    cases cell
    case arr vs => rw [fillCols, ih (col + 1) _ (by omega), placeList_colAt_ne _ _ _ _ hne]
    all_goals
      rw [fillCols, ih (col + 1) _ (by omega)]
    all_goals
      first
      | exact scalarStep_colAt_ne out col c _ hne
      | (intro a h; exact JVal.noConfusion h)


theorem cellCases (cell : JVal) :
    (∃ vs, cell = JVal.arr vs) ∨ cell.isArr = false := by
  cases cell
  case arr vs => exact Or.inl ⟨vs, rfl⟩
  all_goals exact Or.inr rfl

theorem fillCols_cons_arr (vs rest : List JVal) (col : Nat)
    (out : List (List JVal)) :
    fillCols (JVal.arr vs :: rest) col out
      = fillCols rest (col + 1) (placeList out col vs) := rfl

theorem fillCols_cons_scalar (v : JVal) (hv : v.isArr = false)
    (rest : List JVal) (col : Nat) (out : List (List JVal)) :
    fillCols (v :: rest) col out
      = fillCols rest (col + 1) (scalarStep out col v) := by
  cases v
  case arr vs => simp [JVal.isArr] at hv
  all_goals rfl

theorem colEffect_scalar (v : JVal) (hv : v.isArr = false)
    (cv : List JVal) : colEffect v cv = cv.set 0 v := by
  cases v
  case arr vs => simp [JVal.isArr] at hv
  all_goals rfl

theorem fillCols_colAt (data : List JVal) (col : Nat)
    (out : List (List JVal)) (W : Nat)
    (hW : ∀ row ∈ out, row.length = W) (hbound : col + data.length ≤ W) :
    ∀ k, (hk : k < data.length) →
      colAt (fillCols data col out) (col + k) =
        colEffect (data.get ⟨k, hk⟩) (colAt out (col + k)) := by
  induction data generalizing col out with
  | nil => intro k hk; simp at hk
  | cons cell rest ih =>
    intro k hk
    have hcol : col < W := by
      have := hbound
      simp [List.length_cons] at this
      omega
    have hbound1 : (col + 1) + rest.length ≤ W := by
      have := hbound
      simp [List.length_cons] at this
      omega
    cases k with
    | zero =>
      simp only [Nat.add_zero]
      have hget : (cell :: rest).get ⟨0, hk⟩ = cell := rfl
      rw [hget]
      rcases cellCases cell with ⟨vs, rfl⟩ | hflat
      · rw [fillCols_cons_arr, fillCols_colAt_lt rest (col + 1) col _ (by omega)]
        exact placeList_colAt_self vs out col W hW hcol
      · rw [fillCols_cons_scalar cell hflat, fillCols_colAt_lt rest (col + 1) col _ (by omega),
          scalarStep_colAt_self out col cell W hW hcol]
        exact (colEffect_scalar cell hflat (colAt out col)).symm
    | succ k1 =>
      have hk1 : k1 < rest.length := by simpa [List.length_cons] using hk
      have hget : (cell :: rest).get ⟨k1 + 1, hk⟩ = rest.get ⟨k1, hk1⟩ := rfl
      rw [hget]
      have harith : col + (k1 + 1) = (col + 1) + k1 := by omega
      rw [harith]
      rcases cellCases cell with ⟨vs, rfl⟩ | hflat
      · rw [fillCols_cons_arr,
          ih (col + 1) (placeList out col vs) (placeList_widths vs out col W hW) hbound1 k1 hk1,
          placeList_colAt_ne vs out col _ (by omega)]
      · rw [fillCols_cons_scalar cell hflat,
          ih (col + 1) (scalarStep out col cell) (scalarStep_widths out col cell W hW) hbound1 k1 hk1,
          scalarStep_colAt_ne out col _ cell (by omega)]

/-! ## The gravity fill on an all-truthy column -/

theorem firstFalsy_fill (placed rest : List JVal)
    (hp : ∀ x ∈ placed, x.truthy = true) :
    firstFalsy (placed ++ JVal.str "" :: rest) = some placed.length := by
  induction placed with
  | nil => simp [firstFalsy, JVal.truthy]
  | cons p ps ih =>
    have hpt : p.truthy = true := hp p (by simp)
    have hps : ∀ x ∈ ps, x.truthy = true := fun x hx => hp x (by simp [hx])
    have he : firstFalsy ((p :: ps) ++ JVal.str "" :: rest)
        = (firstFalsy (ps ++ JVal.str "" :: rest)).map (· + 1) := by
      simp [firstFalsy, hpt]
    rw [he, ih hps]
    rfl

theorem set_append_length {α : Type} (placed : List α) (x v : α)
    (rest : List α) :
    (placed ++ x :: rest).set placed.length v = placed ++ v :: rest := by
  induction placed with
  | nil => rfl
  | cons p ps ih => simp [List.set, ih]

theorem gplace_fill (placed : List JVal) (rest : List JVal) (v : JVal)
    (hp : ∀ x ∈ placed, x.truthy = true) :
    gplace (placed ++ JVal.str "" :: rest) v = placed ++ v :: rest := by
  rw [gplace, firstFalsy_fill placed rest hp]
  exact set_append_length placed _ v rest

theorem foldl_gplace_truthy (vs : List JVal) (placed : List JVal) (m : Nat)
    (hvs : ∀ x ∈ vs, x.truthy = true) (hp : ∀ x ∈ placed, x.truthy = true)
    (hm : vs.length ≤ m) :
    vs.foldl gplace (placed ++ List.replicate m (JVal.str "")) =
      placed ++ vs ++ List.replicate (m - vs.length) (JVal.str "") := by
  induction vs generalizing placed m with
  | nil => simp
  | cons v rest ih =>
    cases m with
    | zero => simp [List.length_cons] at hm
    | succ m1 =>
      have hvt : v.truthy = true := hvs v (by simp)
      have hrest : ∀ x ∈ rest, x.truthy = true := fun x hx => hvs x (by simp [hx])
      have hm1 : rest.length ≤ m1 := by simpa [List.length_cons] using hm
      have step : gplace (placed ++ List.replicate (m1 + 1) (JVal.str "")) v
          = (placed ++ [v]) ++ List.replicate m1 (JVal.str "") := by
        rw [List.replicate_succ, gplace_fill placed _ v hp]
        simp
      have hp1 : ∀ x ∈ placed ++ [v], x.truthy = true := by
        intro x hx
        rcases List.mem_append.mp hx with h1 | h1
        · exact hp x h1
        · simp at h1; subst h1; exact hvt
      calc (v :: rest).foldl gplace (placed ++ List.replicate (m1 + 1) (JVal.str ""))
          = rest.foldl gplace ((placed ++ [v]) ++ List.replicate m1 (JVal.str "")) := by
            simp only [List.foldl_cons, step]
        _ = (placed ++ [v]) ++ rest ++ List.replicate (m1 - rest.length) (JVal.str "") :=
            ih (placed ++ [v]) m1 hrest hp1 hm1
        _ = placed ++ (v :: rest) ++ List.replicate (m1 + 1 - (v :: rest).length) (JVal.str "") := by
            simp [List.length_cons]

/-! ## longestOf facts -/

/-- Maximum array length among the cells (0 when there is none). -/
def maxArrLen (data : List JVal) : Nat :=
  data.foldl
    (fun a c => match c with
      | .arr vs => max a vs.length
      | _ => a) 0

theorem longest_foldl_max (data : List JVal) (a b : Nat) :
    data.foldl
      (fun acc c => match c with
        | .arr vs => max acc vs.length
        | _ => acc) (max a b)
    = max a (data.foldl
      (fun acc c => match c with
        | .arr vs => max acc vs.length
        | _ => acc) b) := by
  induction data generalizing b with
  | nil => rfl
  | cons cell rest ih =>
    cases cell
    case arr vs =>
      simp only [List.foldl_cons]
      rw [Nat.max_assoc, ih]
    all_goals simp only [List.foldl_cons]
    all_goals exact ih b

theorem longest_foldl_ge_init (data : List JVal) (b : Nat) :
    b ≤ data.foldl
      (fun acc c => match c with
        | .arr vs => max acc vs.length
        | _ => acc) b := by
  induction data generalizing b with
  | nil => exact Nat.le_refl b
  | cons cell rest ih =>
    cases cell
    case arr vs =>
      simp only [List.foldl_cons]
      exact Nat.le_trans (Nat.le_max_left b vs.length) (ih (max b vs.length))
    all_goals simp only [List.foldl_cons]
    all_goals exact ih b

theorem longest_foldl_mono (data : List JVal) (a b : Nat) (hab : a ≤ b) :
    data.foldl
      (fun acc c => match c with
        | .arr vs => max acc vs.length
        | _ => acc) a
    ≤ data.foldl
      (fun acc c => match c with
        | .arr vs => max acc vs.length
        | _ => acc) b := by
  induction data generalizing a b with
  | nil => exact hab
  | cons cell rest ih =>
    cases cell
    case arr vs =>
      simp only [List.foldl_cons]
      exact ih _ _ (by omega)
    all_goals simp only [List.foldl_cons]
    all_goals exact ih a b hab

theorem longestOf_eq_max (data : List JVal) :
    longestOf data = max 1 (maxArrLen data) := by
  have h : (1 : Nat) = max 1 0 := rfl
  rw [longestOf, h, longest_foldl_max]
  rfl

theorem longestOf_pos (data : List JVal) : 1 ≤ longestOf data := by
  rw [longestOf_eq_max]; omega

theorem longestOf_mem (data : List JVal) (vs : List JVal)
    (h : JVal.arr vs ∈ data) : vs.length ≤ longestOf data := by
  induction data with
  | nil => simp at h
  | cons cell rest ih =>
    rcases List.mem_cons.mp h with h1 | h1
    · subst h1
      have he : longestOf (JVal.arr vs :: rest)
          = max 1 (rest.foldl
            (fun acc c => match c with
              | .arr vs => max acc vs.length
              | _ => acc) vs.length) := by
        rw [longestOf, List.foldl_cons, longest_foldl_max]
      rw [he]
      exact Nat.le_trans (longest_foldl_ge_init rest vs.length)
        (Nat.le_max_right 1 _)
    · have h2 := ih h1
      rw [longestOf] at h2 ⊢
      rw [List.foldl_cons]
      refine Nat.le_trans h2 (longest_foldl_mono rest 1 _ ?_)
      cases cell
      case arr ws => exact Nat.le_max_left 1 ws.length
      all_goals exact Nat.le_refl 1

theorem colAt_grid (L W c : Nat) (hc : c < W) :
    colAt (List.replicate L (List.replicate W (JVal.str ""))) c
      = List.replicate L (JVal.str "") := by
  simp only [colAt, List.map_replicate]
  rw [getD_replicate_of_lt W c _ _ hc]

theorem grid_widths (L W : Nat) :
    ∀ row ∈ List.replicate L (List.replicate W (JVal.str "")), row.length = W := by
  intro row hrow
  rw [List.eq_of_mem_replicate hrow]
  exact List.length_replicate _ _

/-! ## Claim theorems for the CSV row expander -/

/-- C1, counterexample.  The claim says every value from every list-valued
cell appears in exactly one output row.  For the entry with one column
holding the list [0, 5], the value 0 is placed into row 0 and then
overwritten by 5 (0 is falsy), so 0 appears in no output row at all. -/
theorem c1_counterexample :
    getOutputRows ["a"] [JVal.arr [JVal.num 0, JVal.num 5]]
      = [[JVal.num 5], [JVal.str ""]] ∧
    ((getOutputRows ["a"] [JVal.arr [JVal.num 0, JVal.num 5]]).countP
      (fun row => row.any
        (fun v => match v with
          | JVal.num n => n == 0
          | _ => false))) = 0 := by
  exact ⟨rfl, rfl⟩

/-- C1 (amended): for every CsvEntry whose data is header-aligned,
getOutputRows returns exactly max(1, maximum list length among its cells)
rows, each of width equal to the header count; every list-valued cell whose
elements are all truthy fills its column with those values in order, one per
row, padded with empty strings (so each such value appears in exactly one
row); and every scalar cell appears in the first output row only, its
column's remaining rows holding the empty string.  (The truthiness proviso is
forced by the counterexample: falsy list elements can be overwritten.) -/
theorem c1_amended (headers : List String) (data : List JVal)
    (hlen : data.length = headers.length) :
    (getOutputRows headers data).length = max 1 (maxArrLen data) ∧
    (∀ row ∈ getOutputRows headers data, row.length = headers.length) ∧
    (∀ c (hc : c < data.length),
      (∀ vs, data.get ⟨c, hc⟩ = JVal.arr vs → (∀ x ∈ vs, x.truthy = true) →
        colAt (getOutputRows headers data) c
          = vs ++ List.replicate (longestOf data - vs.length) (JVal.str "")) ∧
      (∀ v, data.get ⟨c, hc⟩ = v → v.isArr = false →
        colAt (getOutputRows headers data) c
          = v :: List.replicate (longestOf data - 1) (JVal.str ""))) := by
  have hW := grid_widths (longestOf data) headers.length
  refine ⟨?_, ?_, ?_⟩
  · rw [getOutputRows, fillCols_length, List.length_replicate, longestOf_eq_max]
  · exact fillCols_widths data 0 _ headers.length hW
  · intro c hc
    have hbound : 0 + data.length ≤ headers.length := by omega
    have hcW : c < headers.length := by omega
    have hcol := fillCols_colAt data 0 _ headers.length hW hbound c hc
    rw [Nat.zero_add] at hcol
    rw [colAt_grid (longestOf data) headers.length c hcW] at hcol
    constructor
    · intro vs hget hvs
      rw [getOutputRows, hcol, hget]
      have hle : vs.length ≤ longestOf data := by
        refine longestOf_mem data vs ?_
        rw [← hget]
        exact List.get_mem data c hc
      have := foldl_gplace_truthy vs [] (longestOf data) hvs (by simp) hle
      simpa [colEffect] using this
    · intro v hget hv
      rw [getOutputRows, hcol, hget, colEffect_scalar v hv]
      have hL : longestOf data = (longestOf data - 1) + 1 := by
        have := longestOf_pos data
        omega
      rw [hL, List.replicate_succ]
      rfl

/-- C1, witness: the amended theorem applied to the entry
{a: "x", b: ["1","2","3"]} over headers [a, b]. -/
theorem c1_witness :
    (getOutputRows ["a", "b"]
        [JVal.str "x", JVal.arr [JVal.str "1", JVal.str "2", JVal.str "3"]]).length
      = max 1 (maxArrLen [JVal.str "x", JVal.arr [JVal.str "1", JVal.str "2", JVal.str "3"]]) ∧
    colAt (getOutputRows ["a", "b"]
        [JVal.str "x", JVal.arr [JVal.str "1", JVal.str "2", JVal.str "3"]]) 1
      = [JVal.str "1", JVal.str "2", JVal.str "3"] ∧
    colAt (getOutputRows ["a", "b"]
        [JVal.str "x", JVal.arr [JVal.str "1", JVal.str "2", JVal.str "3"]]) 0
      = [JVal.str "x", JVal.str "", JVal.str ""] := by
  have h := c1_amended ["a", "b"]
    [JVal.str "x", JVal.arr [JVal.str "1", JVal.str "2", JVal.str "3"]] rfl
  refine ⟨h.1, ?_, ?_⟩
  · have h2 := (h.2.2 1 (by decide)).1 [JVal.str "1", JVal.str "2", JVal.str "3"] rfl
      (by decide)
    simpa using h2
  · have h2 := (h.2.2 0 (by decide)).2 (JVal.str "x") rfl rfl
    simpa using h2

/-- C5: gravity-fill tests slot emptiness by truthiness, so a falsy list
element already placed (here the 0 in [0, 7], and the "" in ["", "x"]) is
treated as an empty slot and overwritten by the next element of the same
column; the falsy value is absent from the output. -/
theorem c5_falsy_overwrite :
    getOutputRows ["a"] [JVal.arr [JVal.str "", JVal.str "x"]]
      = [[JVal.str "x"], [JVal.str ""]] ∧
    getOutputRows ["a", "b"] [JVal.str "s", JVal.arr [JVal.num 0, JVal.num 7]]
      = [[JVal.str "s", JVal.num 7], [JVal.str "", JVal.str ""]] ∧
    ((getOutputRows ["a", "b"] [JVal.str "s", JVal.arr [JVal.num 0, JVal.num 7]]).countP
      (fun row => row.any
        (fun v => match v with
          | JVal.num n => n == 0
          | _ => false))) = 0 := by
  exact ⟨rfl, rfl, rfl⟩

/-! ## Claim theorems for the CSV document -/

/-- C7: serializing headers [a, b] with the single entry {a: "x", b: "y"}
under the default qualifier and delimiter yields exactly the text
"a","b" newline "x","y" (each field qualified, fields joined by the
delimiter, rows joined by newline, no trailing newline); and in general a
null, undefined or empty-string field serializes as an empty but still
qualified field while the number 0 serializes as "0". -/
theorem c7_serialization :
    csvNew ["a", "b"] [] = Except.ok ({ headers := ["a", "b"] } : CSVDoc) ∧
    (match addObject { headers := ["a", "b"] } [("a", JVal.str "x"), ("b", JVal.str "y")] with
      | .ok doc => writeFile doc
      | .error e => .error e)
      = Except.ok "\"a\",\"b\"\n\"x\",\"y\"" ∧
    (∀ q : String, q ≠ "" →
      fieldText q JVal.null = q ++ q ∧
      fieldText q JVal.undefined = q ++ q ∧
      fieldText q (JVal.str "") = q ++ q ∧
      fieldText q (JVal.num 0) = q ++ "0" ++ q) := by
  refine ⟨rfl, rfl, ?_⟩
  intro q hq
  have h0 : toString (0 : Int) = "0" := rfl
  refine ⟨?_, ?_, ?_, ?_⟩
  all_goals simp [fieldText, serEmpty, jsToText, hq, h0]

/-- C7, witness: the general field facts applied at the default qualifier. -/
theorem c7_witness :
    fieldText "\"" JVal.null = "\"\"" ∧
    fieldText "\"" (JVal.num 0) = "\"0\"" := by
  have h := (c7_serialization.2.2 "\"" (by decide))
  exact ⟨h.1, h.2.2.2⟩

/-- entryAdd returns normally whenever the value is not a non-array object
(the only throw site in CSVEntry.add). -/
theorem entryAdd_ok (headers : List String) (data : List JVal) (k : String)
    (v : JVal) (hv : (v.typeofObject && !v.isArr) = false) :
    ∃ d1, entryAdd headers data k v = Except.ok d1 := by
  unfold entryAdd
  simp only [hv, Bool.false_eq_true, if_false]
  split
  · split
    · exact ⟨_, rfl⟩
    · exact ⟨_, rfl⟩
  · exact ⟨_, rfl⟩

/-- C8, counterexample.  The claim says a matching key count with an
unrecognized key raises the unknown-header error.  For headers [a, b] and the
object {a: {}, x: "v"} the counts match and "x" is unknown, but the loop
reaches the object value under the known key "a" first and CSVEntry.add
throws "Cannot add object to cell" — no unknown-header error is raised. -/
theorem c8_counterexample :
    addObject { headers := ["a", "b"] } [("a", JVal.obj []), ("x", JVal.str "v")]
      = Except.error CsvError.cannotAddObjectToCell := rfl

/-- The addObject key loop, walked over a prefix of recognized keys whose
values CSVEntry.add accepts, throws "Could not find header" at the first
unknown key. -/
theorem addAll_prefix_unknown (headers : List String)
    (pre : List (String × JVal)) (k0 : String) (v0 : JVal)
    (post : List (String × JVal)) :
    ∀ data, k0 ∉ headers →
    (∀ p ∈ pre, p.1 ∈ headers) →
    (∀ p ∈ pre, (p.2.typeofObject && !p.2.isArr) = false) →
    addAll headers data (pre ++ (k0, v0) :: post)
      = Except.error (CsvError.unknownFieldError k0) := by
  induction pre with
  | nil => intro data hk0 _ _; simp [addAll, hk0]
  | cons p rest ih =>
    intro data hk0 hkeys hvals
    obtain ⟨k, v⟩ := p
    have hk : k ∈ headers := hkeys (k, v) (by simp)
    obtain ⟨d1, hd1⟩ := entryAdd_ok headers data k v (hvals (k, v) (by simp))
    have hres := ih d1 hk0 (fun p hp => hkeys p (by simp [hp]))
      (fun p hp => hvals p (by simp [hp]))
    simp [addAll, hk, hd1, hres]

/-- C8 (amended): a key count differing from the header count raises the
cardinality error; when the count matches, the first unknown key — every key
enumerated before it being a recognized header — raises the unknown-header
error naming it, provided no earlier key's value is a non-array object or
null (such a value makes CSVEntry.add throw "Cannot add object to cell"
before the unknown key is reached, per the counterexample).  In both cases
addObject returns an error, so no entry is appended to the document. -/
theorem c8_validation_amended (doc : CSVDoc) (kvs : List (String × JVal)) :
    (kvs.length ≠ doc.headers.length →
      addObject doc kvs = Except.error CsvError.cardinalityError) ∧
    (∀ (pre : List (String × JVal)) (k0 : String) (v0 : JVal)
        (post : List (String × JVal)),
      kvs = pre ++ (k0, v0) :: post →
      kvs.length = doc.headers.length →
      k0 ∉ doc.headers →
      (∀ p ∈ pre, p.1 ∈ doc.headers) →
      (∀ p ∈ pre, (p.2.typeofObject && !p.2.isArr) = false) →
      addObject doc kvs = Except.error (CsvError.unknownFieldError k0)) := by
  constructor
  · intro h
    unfold addObject
    rw [if_pos h]
  · intro pre k0 v0 post hsplit hlen hk0 hkeys hvals
    have hres := addAll_prefix_unknown doc.headers pre k0 v0 post [] hk0 hkeys hvals
    unfold addObject
    rw [if_neg (by omega), hsplit, hres]

/-- C8, witness: headers [a, b] with a one-key object (cardinality) and with
the object {a: "x", c: "y"}, whose first unknown key is c. -/
theorem c8_amended_witness :
    addObject { headers := ["a", "b"] } [("a", JVal.str "x")]
      = Except.error CsvError.cardinalityError ∧
    addObject { headers := ["a", "b"] } [("a", JVal.str "x"), ("c", JVal.str "y")]
      = Except.error (CsvError.unknownFieldError "c") := by
  constructor
  · exact (c8_validation_amended { headers := ["a", "b"] } [("a", JVal.str "x")]).1
      (by decide)
  · exact (c8_validation_amended { headers := ["a", "b"] }
      [("a", JVal.str "x"), ("c", JVal.str "y")]).2 [("a", JVal.str "x")] "c"
      (JVal.str "y") [] rfl (by decide) (by decide) (by decide) (by decide)

/-- Any raw value pushed by addLine makes the entry loop of writeFile throw:
raw arrays have no getOutputRows method. -/
theorem collectRows_raw (entries : List EntryItem) :
    (∃ l, EntryItem.rawLine l ∈ entries) →
    collectRows entries = Except.error CsvError.typeError := by
  induction entries with
  | nil => intro hex; simp at hex
  | cons e rest ih =>
    intro hex
    obtain ⟨l, hl⟩ := hex
    cases e with
    | rawLine l1 => simp [collectRows, entryRows]
    | entry hs data =>
      have hmem : EntryItem.rawLine l ∈ rest := by
        rcases List.mem_cons.mp hl with h1 | h1
        · exact absurd h1 (by intro hcc; exact EntryItem.noConfusion hcc)
        · exact h1
      simp [collectRows, entryRows, ih ⟨l, hmem⟩]

/-- Successful addLine appends the raw line argument to entries. -/
theorem addLine_entries (doc doc1 : CSVDoc) (vs : List JVal)
    (hadd : addLine doc (JVal.arr vs) = Except.ok doc1) :
    doc1.entries = doc.entries ++ [EntryItem.rawLine (JVal.arr vs)] := by
  unfold addLine at hadd
  simp only [JVal.truthy, Bool.not_true, Bool.false_eq_true, if_false] at hadd
  by_cases hl : vs.length = doc.headers.length
  · simp [hl] at hadd
    rw [← hadd]
  · simp [hl] at hadd

/-- Successful addObject appends one assembled entry, leaving the existing
entries in place. -/
theorem addObject_entries (doc doc2 : CSVDoc) (kvs : List (String × JVal))
    (hadd : addObject doc kvs = Except.ok doc2) :
    ∃ data, doc2.entries = doc.entries ++ [EntryItem.entry doc.headers data] := by
  unfold addObject at hadd
  by_cases hl : kvs.length ≠ doc.headers.length
  · rw [if_pos hl] at hadd
    exact absurd hadd (by intro hcc; exact Except.noConfusion hcc)
  · rw [if_neg hl] at hadd
    cases hres : addAll doc.headers [] kvs with
    | error e =>
      rw [hres] at hadd
      exact absurd hadd (by intro hcc; exact Except.noConfusion hcc)
    | ok data =>
      rw [hres] at hadd
      refine ⟨data, ?_⟩
      have := Except.ok.inj hadd
      rw [← this]

/-- C9: once addLine has been called with an array of the correct length, the
raw array (not a CSVEntry) sits in entries, so every later writeFile throws a
TypeError when it calls getOutputRows on it — also after further addObject
calls.  The document can no longer be serialized. -/
theorem c9_addLine_poisons_writeFile (doc doc1 : CSVDoc) (vs : List JVal)
    (hadd : addLine doc (JVal.arr vs) = Except.ok doc1) :
    writeFile doc1 = Except.error CsvError.typeError ∧
    (∀ kvs doc2, addObject doc1 kvs = Except.ok doc2 →
      writeFile doc2 = Except.error CsvError.typeError) := by
  have hmem : EntryItem.rawLine (JVal.arr vs) ∈ doc1.entries := by
    rw [addLine_entries doc doc1 vs hadd]
    simp
  constructor
  · unfold writeFile
    rw [collectRows_raw doc1.entries ⟨JVal.arr vs, hmem⟩]
  · intro kvs doc2 hadd2
    obtain ⟨data, hent⟩ := addObject_entries doc1 doc2 kvs hadd2
    have hmem2 : EntryItem.rawLine (JVal.arr vs) ∈ doc2.entries := by
      rw [hent]
      exact List.mem_append.mpr (Or.inl hmem)
    unfold writeFile
    rw [collectRows_raw doc2.entries ⟨JVal.arr vs, hmem2⟩]

/-- C9, witness: a document with headers [a] after addLine(["x"]). -/
theorem c9_witness :
    writeFile {
        headers := ["a"],
        entries := [EntryItem.rawLine (JVal.arr [JVal.str "x"])] }
      = Except.error CsvError.typeError := by
  exact (c9_addLine_poisons_writeFile { headers := ["a"] }
    { headers := ["a"], entries := [EntryItem.rawLine (JVal.arr [JVal.str "x"])] }
    [JVal.str "x"] rfl).1

/-- The addObject key loop reaches the first value on which CSVEntry.add
throws "Cannot add object to cell", when every key is a known header. -/
theorem addAll_object (headers : List String) (data : List JVal)
    (kvs : List (String × JVal)) :
    (∀ p ∈ kvs, p.1 ∈ headers) →
    (∃ p ∈ kvs, (p.2.typeofObject && !p.2.isArr) = true) →
    addAll headers data kvs = Except.error CsvError.cannotAddObjectToCell := by
  induction kvs generalizing data with
  | nil => intro _ hex; simp at hex
  | cons p rest ih =>
    intro hall hex
    obtain ⟨k, v⟩ := p
    have hk : k ∈ headers := hall (k, v) (by simp)
    by_cases hv : (v.typeofObject && !v.isArr) = true
    · simp [addAll, hk, entryAdd, hv]
    · obtain ⟨d1, hd1⟩ := entryAdd_ok headers data k v (by simpa using hv)
      have hrest : ∃ p ∈ rest, (p.2.typeofObject && !p.2.isArr) = true := by
        obtain ⟨p, hp, hpv⟩ := hex
        rcases List.mem_cons.mp hp with h1 | h1
        · subst h1; exact absurd hpv hv
        · exact ⟨p, h1, hpv⟩
      have hres := ih d1 (fun p hp => hall p (by simp [hp])) hrest
      simp [addAll, hk, hd1, hres]

/-- The addObject key loop errors on some key whenever some value is a
non-array object, whatever the keys are. -/
theorem addAll_object_err (headers : List String) (data : List JVal)
    (kvs : List (String × JVal)) :
    (∃ p ∈ kvs, (p.2.typeofObject && !p.2.isArr) = true) →
    ∃ e, addAll headers data kvs = Except.error e := by
  induction kvs generalizing data with
  | nil => intro hex; simp at hex
  | cons p rest ih =>
    intro hex
    obtain ⟨k, v⟩ := p
    by_cases hk : k ∈ headers
    · by_cases hv : (v.typeofObject && !v.isArr) = true
      · exact ⟨CsvError.cannotAddObjectToCell, by simp [addAll, hk, entryAdd, hv]⟩
      · obtain ⟨d1, hd1⟩ := entryAdd_ok headers data k v (by simpa using hv)
        have hrest : ∃ p ∈ rest, (p.2.typeofObject && !p.2.isArr) = true := by
          obtain ⟨p, hp, hpv⟩ := hex
          rcases List.mem_cons.mp hp with h1 | h1
          · subst h1; exact absurd hpv hv
          · exact ⟨p, h1, hpv⟩
        obtain ⟨e, he⟩ := ih d1 hrest
        exact ⟨e, by simp [addAll, hk, hd1, he]⟩
    · exact ⟨CsvError.unknownFieldError k, by simp [addAll, hk]⟩

/-- C10: an object some of whose values are non-array objects (for example
the scalar-to-scalar mapping a Split-with-map column produces) can never be
added: addObject always errors, and when the object passes the count and
header checks the error is exactly "Cannot add object to cell" (note
CSVEntry.add also throws it for null values, since typeof null is object). -/
theorem c10_object_values_rejected (doc : CSVDoc) (kvs : List (String × JVal))
    (hobj : ∃ p ∈ kvs, ∃ fields, p.2 = JVal.obj fields) :
    (∃ e, addObject doc kvs = Except.error e) ∧
    (kvs.length = doc.headers.length →
      (∀ p ∈ kvs, p.1 ∈ doc.headers) →
      addObject doc kvs = Except.error CsvError.cannotAddObjectToCell) := by
  have htrig : ∃ p ∈ kvs, (p.2.typeofObject && !p.2.isArr) = true := by
    obtain ⟨p, hp, fields, hf⟩ := hobj
    exact ⟨p, hp, by rw [hf]; rfl⟩
  constructor
  · by_cases hlen : kvs.length ≠ doc.headers.length
    · exact ⟨CsvError.cardinalityError, by unfold addObject; rw [if_pos hlen]⟩
    · obtain ⟨e, he⟩ := addAll_object_err doc.headers [] kvs htrig
      exact ⟨e, by unfold addObject; rw [if_neg hlen, he]⟩
  · intro hlen hall
    have hres := addAll_object doc.headers [] kvs hall htrig
    unfold addObject
    rw [if_neg (by omega), hres]

/-- C10, witness: adding {m: {k: "v"}} to a document with headers [m]. -/
theorem c10_witness :
    addObject { headers := ["m"] } [("m", JVal.obj [("k", JVal.str "v")])]
      = Except.error CsvError.cannotAddObjectToCell := by
  exact (c10_object_values_rejected { headers := ["m"] }
    [("m", JVal.obj [("k", JVal.str "v")])]
    ⟨("m", JVal.obj [("k", JVal.str "v")]), by simp, [("k", JVal.str "v")], rfl⟩).2
    rfl (by simp)

/-! ## Claim theorems for the row assembler -/

theorem tail_drop {α : Type} (l : List α) (k : Nat) :
    l.tail.drop k = l.drop (k + 1) := by
  cases l with
  | nil => simp
  | cons a rest => rfl

/-- If the column operation at index k fails for every record state, the whole
row assembly fails (the columns before it either fail themselves or hand a
record to column k, which fails). -/
theorem putDataInObject_col_fatal (dataArr : List String)
    (specs : List (Option HeaderObj)) (k : Nat) :
    k < dataArr.length →
    ∀ h0, (specs.drop k).headD none = some h0 →
    (∀ dest1, applyHeader (dataArr.getD k "") h0 dest1
      = Except.error CsvError.fatalExit) →
    ∀ dest, ∃ e, putDataInObject dataArr specs dest = Except.error e := by
  induction dataArr generalizing specs k with
  | nil => intro hk; simp at hk
  | cons d rest ih =>
    intro hk h0 hspec hfail dest
    cases k with
    | zero =>
      rw [List.drop_zero] at hspec
      have hd : (d :: rest).getD 0 "" = d := rfl
      rw [hd] at hfail
      have hs2 := hspec
      simp only [List.headD_eq_head?] at hs2
      exact ⟨CsvError.fatalExit, by simp [putDataInObject, hs2, hfail dest]⟩
    | succ k1 =>
      have hk1 : k1 < rest.length := by simpa using hk
      have hspec1 : (specs.tail.drop k1).headD none = some h0 := by
        rw [tail_drop]; exact hspec
      have hfail1 : ∀ dest1, applyHeader (rest.getD k1 "") h0 dest1
          = Except.error CsvError.fatalExit := hfail
      cases hs : specs.headD none with
      | none =>
        obtain ⟨e, he⟩ := ih specs.tail k1 hk1 h0 hspec1 hfail1 dest
        have hs2 := hs
        simp only [List.headD_eq_head?] at hs2
        exact ⟨e, by simp [putDataInObject, hs2, he]⟩
      | some h =>
        have hs2 := hs
        simp only [List.headD_eq_head?] at hs2
        cases he : applyHeader d h dest with
        | error e => exact ⟨e, by simp [putDataInObject, hs2, he]⟩
        | ok dest1 =>
          obtain ⟨e2, he2⟩ := ih specs.tail k1 hk1 h0 hspec1 hfail1 dest1
          exact ⟨e2, by simp [putDataInObject, hs2, he, he2]⟩

/-- If assembling some row of the batch fails, the whole batch fails. -/
theorem rowsToArrayOfObj_err (rows : List (List String))
    (specs : List (Option HeaderObj)) (row : List String) (hrow : row ∈ rows)
    (herr : ∃ e, putDataInObject row specs [] = Except.error e) :
    ∃ e, rowsToArrayOfObj rows specs = Except.error e := by
  induction rows with
  | nil => simp at hrow
  | cons r rest ih =>
    cases hput : putDataInObject r specs [] with
    | error e => exact ⟨e, by rw [rowsToArrayOfObj, hput]⟩
    | ok o =>
      have hmem : row ∈ rest := by
        rcases List.mem_cons.mp hrow with h1 | h1
        · subst h1
          obtain ⟨e, he⟩ := herr
          rw [hput] at he
          exact absurd he (by intro hcc; exact Except.noConfusion hcc)
        · exact h1
      obtain ⟨e2, he2⟩ := ih hmem
      exact ⟨e2, by rw [rowsToArrayOfObj, hput, he2]⟩

/-- C2: for every compiled Transform header spec, a matching cell stores
exactly capture group 1 into the record's field; a non-matching cell is fatal
for the whole batch — whichever row of the batch holds that cell, the batch
operation produces no record list at all (the source prints an error and
calls process exit; the model makes the batch return the fatal error). -/
theorem c2_transform (m : Matcher) (name : String) (cell : String) :
    (∀ gs dest, m cell = some gs →
      applyHeader cell (transformSpec name m) dest
        = Except.ok (setKV dest name (gval (gs.getD 1 none)))) ∧
    (m cell = none →
      ∀ (rows : List (List String)) (specs : List (Option HeaderObj))
        (row : List String) (k : Nat),
        row ∈ rows → k < row.length →
        (specs.drop k).headD none = some (transformSpec name m) →
        row.getD k "" = cell →
        ∃ e, rowsToArrayOfObj rows specs = Except.error e) := by
  constructor
  · intro gs dest hm
    simp [applyHeader, transformSpec, hm]
  · intro hm rows specs row k hrow hk hspec hcell
    refine rowsToArrayOfObj_err rows specs row hrow ?_
    refine putDataInObject_col_fatal row specs k hk (transformSpec name m) hspec ?_ []
    intro dest1
    rw [hcell]
    simp [applyHeader, transformSpec, hm]

/-- A transform matcher for the witnesses: accepts exactly "v=3" with capture
group 1 equal to "3". -/
def mW : Matcher := fun s =>
  if s = "v=3" then some [some "v=3", some "3"] else none

/-- C2, witness: the transform spec applied to a matching cell, and a batch
of two rows whose second row does not match. -/
theorem c2_witness :
    applyHeader "v=3" (transformSpec "f" mW) []
      = Except.ok [("f", JVal.str "3")] ∧
    ∃ e, rowsToArrayOfObj [["v=3"], ["bad"]] [some (transformSpec "f" mW)]
      = Except.error e := by
  constructor
  · exact (c2_transform mW "f" "v=3").1 [some "v=3", some "3"] [] rfl
  · exact (c2_transform mW "f" "bad").2 rfl [["v=3"], ["bad"]]
      [some (transformSpec "f" mW)] ["bad"] 0 (by decide) (by decide) rfl rfl

/-- C3, counterexample.  The claim says a non-matching cell leaves the Multi
fields undefined with no error raised.  In the source, matches is null and
the loop body reads matches[x + 1], a TypeError: assembly does not continue. -/
theorem c3_counterexample :
    applyHeader "z" (multiSpec ["a"] (fun _ => none)) []
      = Except.error CsvError.typeError := rfl

theorem multiLoop_some (gs : List (Option String)) (names : List String)
    (gi : Nat) (dest : Record) :
    multiLoop (some gs) names gi dest = Except.ok (assignGroups gs names gi dest) := by
  induction names generalizing gi dest with
  | nil => rfl
  | cons n rest ih => simp [multiLoop, assignGroups, ih]

/-- C3 (amended): for every compiled Multi header spec with names N, a
matching cell populates the N fields with capture groups 1..N in group order
(a group past the match array's end is undefined); a NON-matching cell throws
a TypeError (reading a capture group of the null match result) whenever there
is at least one name — which holds for every compiled Multi spec, since the
name list comes from String.split — so assembly aborts instead of silently
leaving the fields undefined. -/
theorem c3_multi_amended (m : Matcher) (names : List String) (cell : String)
    (dest : Record) :
    (∀ gs, m cell = some gs →
      applyHeader cell (multiSpec names m) dest
        = Except.ok (assignGroups gs names 1 dest)) ∧
    (m cell = none → names ≠ [] →
      applyHeader cell (multiSpec names m) dest
        = Except.error CsvError.typeError) := by
  constructor
  · intro gs hm
    simp [applyHeader, multiSpec, hm, multiLoop_some]
  · intro hm hne
    cases names with
    | nil => exact absurd rfl hne
    | cons n rest => simp [applyHeader, multiSpec, hm, multiLoop]

/-- A multi matcher for the witness: accepts exactly "p q" with groups
"p" and "q". -/
def mMw : Matcher := fun s =>
  if s = "p q" then some [some "p q", some "p", some "q"] else none

/-- C3, witness: the amended theorem at a matching and a non-matching cell. -/
theorem c3_witness :
    applyHeader "p q" (multiSpec ["a", "b"] mMw) []
      = Except.ok [("a", JVal.str "p"), ("b", JVal.str "q")] ∧
    applyHeader "zz" (multiSpec ["a", "b"] mMw) []
      = Except.error CsvError.typeError := by
  constructor
  · exact (c3_multi_amended mMw ["a", "b"] "p q" []).1
      [some "p q", some "p", some "q"] rfl
  · exact (c3_multi_amended mMw ["a", "b"] "zz" []).2 rfl (by simp)

/-! ### Split with map pattern -/

theorem mapInsert_obj (dest : Record) (name k : String) (v : JVal)
    (kvs : List (String × JVal)) (h : recGet dest name = JVal.obj kvs) :
    mapInsert dest name k v
      = Except.ok (setKV dest name (JVal.obj (setKV kvs k v))) := by
  rw [mapInsert, h]

theorem splitMapLoop_all (mf : Matcher) (name : String) (full : List String)
    (parts : List String) :
    ∀ kvs dest, (∀ p ∈ parts, (mf p).isSome) →
    splitMapLoop mf name full parts (setKV dest name (JVal.obj kvs))
      = Except.ok (setKV dest name (JVal.obj (parts.foldl
          (fun kvs1 p =>
            match mf p with
            | some gs => setKV kvs1 (keyOf (gs.getD 1 none)) (gval (gs.getD 2 none))
            | none => kvs1) kvs))) := by
  induction parts with
  | nil => intro kvs dest _; rfl
  | cons p rest ih =>
    intro kvs dest hall
    obtain ⟨gs, hgs⟩ := Option.isSome_iff_exists.mp (hall p (by simp))
    have hins := mapInsert_obj (setKV dest name (JVal.obj kvs)) name
      (keyOf (gs.getD 1 none)) (gval (gs.getD 2 none)) kvs
      (recGet_setKV_self dest name (JVal.obj kvs))
    rw [setKV_setKV] at hins
    have hrest := ih (setKV kvs (keyOf (gs.getD 1 none)) (gval (gs.getD 2 none)))
      dest (fun p1 hp1 => hall p1 (by simp [hp1]))
    simp only [splitMapLoop, hgs, hins, hrest, List.foldl_cons]

theorem splitMapLoop_fail (mf : Matcher) (name : String) (full : List String)
    (parts : List String) :
    ∀ kvs dest, (∃ p ∈ parts, mf p = none) →
    splitMapLoop mf name full parts (setKV dest name (JVal.obj kvs))
      = Except.ok (setKV dest name (JVal.arr (full.map JVal.str))) := by
  induction parts with
  | nil => intro kvs dest hex; simp at hex
  | cons p rest ih =>
    intro kvs dest hex
    cases hgs : mf p with
    | none => simp only [splitMapLoop, hgs, setKV_setKV]
    | some gs =>
      have hrest : ∃ p1 ∈ rest, mf p1 = none := by
        obtain ⟨p1, hp1, hnp1⟩ := hex
        rcases List.mem_cons.mp hp1 with h1 | h1
        · subst h1; rw [hgs] at hnp1; exact absurd hnp1 (by simp)
        · exact ⟨p1, h1, hnp1⟩
      have hins := mapInsert_obj (setKV dest name (JVal.obj kvs)) name
        (keyOf (gs.getD 1 none)) (gval (gs.getD 2 none)) kvs
        (recGet_setKV_self dest name (JVal.obj kvs))
      rw [setKV_setKV] at hins
      have hres := ih (setKV kvs (keyOf (gs.getD 1 none)) (gval (gs.getD 2 none)))
        dest hrest
      simp only [splitMapLoop, hgs, hins, hres]

/-- C4: for every compiled Split spec with a map pattern, applied to a record
whose field is still unset (falsy): if every fragment of the split matches
the map pattern, the field becomes the mapping from each fragment's capture
group 1 to its capture group 2 (accumulated in fragment order, later
duplicate keys overwriting); if any fragment fails to match, the field equals
the raw split list and the partially built mapping is discarded — never a
partial mapping. -/
theorem c4_split_map (dl : String → List String) (mf : Matcher) (name : String)
    (cell : String) (dest : Record)
    (hinit : (recGet dest name).truthy = false) :
    ((∀ p ∈ dl cell, (mf p).isSome) →
      applyHeader cell (splitSpec name dl (some mf)) dest
        = Except.ok (setKV dest name (JVal.obj (buildMapKVs mf (dl cell))))) ∧
    ((∃ p ∈ dl cell, mf p = none) →
      applyHeader cell (splitSpec name dl (some mf)) dest
        = Except.ok (setKV dest name (JVal.arr ((dl cell).map JVal.str)))) := by
  constructor
  · intro hall
    have h1 := splitMapLoop_all mf name (dl cell) (dl cell) [] dest hall
    simp [applyHeader, splitSpec, hinit, buildMapKVs, h1]
  · intro hex
    have h1 := splitMapLoop_fail mf name (dl cell) (dl cell) [] dest hex
    simp [applyHeader, splitSpec, hinit, h1]

/-- Character-level splitter used only by the witnesses (structurally
recursive, so concrete instances reduce in the kernel). -/
def splitOnChar (sep : Char) : List Char → List (List Char)
  | [] => [[]]
  | c :: rest =>
    match splitOnChar sep rest with
    | [] => [[c]]
    | g :: gs => if c = sep then [] :: g :: gs else (c :: g) :: gs

/-- The splitter for the C4 witness: split on commas. -/
def splW : String → List String :=
  fun s => (splitOnChar ',' s.toList).map String.mk

/-- Map matcher for the C4 witness: fragments of the shape key=value. -/
def mKVw : Matcher := fun s =>
  match (splitOnChar '=' s.toList).map String.mk with
  | [k, v] => some [some s, some k, some v]
  | _ => none

/-- C4, witness: "a=1,b=2" becomes the mapping {a: 1, b: 2}; "a=1,x,c=3"
falls back to the raw split list. -/
theorem c4_witness :
    applyHeader "a=1,b=2" (splitSpec "m" splW (some mKVw)) []
      = Except.ok [("m", JVal.obj [("a", JVal.str "1"), ("b", JVal.str "2")])] ∧
    applyHeader "a=1,x,c=3" (splitSpec "m" splW (some mKVw)) []
      = Except.ok [("m", JVal.arr [JVal.str "a=1", JVal.str "x", JVal.str "c=3"])] := by
  constructor
  · exact (c4_split_map splW mKVw "m" "a=1,b=2" [] rfl).1 (by decide)
  · exact (c4_split_map splW mKVw "m" "a=1,x,c=3" [] rfl).2
      ⟨"x", by decide, rfl⟩

/-! ### Header type resolution (C6) -/

/-- C6: for every header template (and any regex engine), processHeaders
resolves exactly one of the four types by the fixed priority
Transform > Multi > Split > Norm — a template matching an earlier grammar
never receives a later type; the map pattern is recognized independently of
this resolution and attached whenever present; and the attached map pattern
influences assembly only when the resolved type is Split: for every other
type, the per-column operation is unchanged by replacing the map field. -/
theorem c6_resolution_priority (eng : RegexEngine) (template : String) :
    ((jsMatchPair "//" "\\\\" template).isSome →
      (processHeader eng template).type = HType.transform) ∧
    ((jsMatchPair "//" "\\\\" template).isSome = false →
      (jsMatchPair "[[" "]]" template).isSome →
      (processHeader eng template).type = HType.multi) ∧
    ((jsMatchPair "//" "\\\\" template).isSome = false →
      (jsMatchPair "[[" "]]" template).isSome = false →
      (jsMatchPair "\x7b\x7b" "\x7d\x7d" template).isSome →
      (processHeader eng template).type = HType.split) ∧
    ((jsMatchPair "//" "\\\\" template).isSome = false →
      (jsMatchPair "[[" "]]" template).isSome = false →
      (jsMatchPair "\x7b\x7b" "\x7d\x7d" template).isSome = false →
      (processHeader eng template).type = HType.norm) ∧
    ((processHeader eng template).map.isSome
      ↔ (jsMatchPair "<<" ">>" template).isSome) ∧
    (∀ (d : String) (dest : Record) (mp : Option Matcher),
      (processHeader eng template).type ≠ HType.split →
      applyHeader d { processHeader eng template with map := mp } dest
        = applyHeader d (processHeader eng template) dest) := by
  cases htr : jsMatchPair "//" "\\\\" template with
  | some tm =>
    obtain ⟨pre, g1, g2, rest⟩ := tm
    cases hma : jsMatchPair "<<" ">>" template with
    | some mm =>
      obtain ⟨p2, a2, b2, c2⟩ := mm
      refine ⟨?_, ?_, ?_, ?_, ?_, ?_⟩
      all_goals simp [processHeader, htr, hma, applyHeader]
    | none =>
      refine ⟨?_, ?_, ?_, ?_, ?_, ?_⟩
      all_goals simp [processHeader, htr, hma, applyHeader]
  | none =>
    cases hmu : jsMatchPair "[[" "]]" template with
    | some tm =>
      obtain ⟨pre, g1, g2, rest⟩ := tm
      cases hma : jsMatchPair "<<" ">>" template with
      | some mm =>
        obtain ⟨p2, a2, b2, c2⟩ := mm
        refine ⟨?_, ?_, ?_, ?_, ?_, ?_⟩
        all_goals simp [processHeader, htr, hmu, hma, applyHeader]
      | none =>
        refine ⟨?_, ?_, ?_, ?_, ?_, ?_⟩
        all_goals simp [processHeader, htr, hmu, hma, applyHeader]
    | none =>
      cases hsp : jsMatchPair "\x7b\x7b" "\x7d\x7d" template with
      | some tm =>
        obtain ⟨pre, g1, g2, rest⟩ := tm
        cases hma : jsMatchPair "<<" ">>" template with
        | some mm =>
          obtain ⟨p2, a2, b2, c2⟩ := mm
          refine ⟨?_, ?_, ?_, ?_, ?_, ?_⟩
          all_goals simp [processHeader, htr, hmu, hsp, hma]
        | none =>
          refine ⟨?_, ?_, ?_, ?_, ?_, ?_⟩
          all_goals simp [processHeader, htr, hmu, hsp, hma]
      | none =>
        cases hma : jsMatchPair "<<" ">>" template with
        | some mm =>
          obtain ⟨p2, a2, b2, c2⟩ := mm
          refine ⟨?_, ?_, ?_, ?_, ?_, ?_⟩
          all_goals simp [processHeader, htr, hmu, hsp, hma, applyHeader]
        | none =>
          refine ⟨?_, ?_, ?_, ?_, ?_, ?_⟩
          all_goals simp [processHeader, htr, hmu, hsp, hma, applyHeader]

/-- A trivial regex engine for the witnesses (compiled patterns never
match; the splitter returns the single fragment). -/
def engW : RegexEngine :=
  { compile := fun _ => fun _ => none, compileSplit := fun _ s => [s] }

/-- C6, witness: priority resolution on a Transform template, on a
Split-with-map template, and on a plain template, plus map inertness for
the plain (Norm) template. -/
theorem c6_witness :
    (processHeader engW "a//b\\\\").type = HType.transform ∧
    (processHeader engW "nm\x7b\x7bdel\x7d\x7d<<mp>>").type = HType.split ∧
    (processHeader engW "plain").type = HType.norm ∧
    applyHeader "x" { processHeader engW "plain" with map := some (fun _ => none) } []
      = applyHeader "x" (processHeader engW "plain") [] := by
  refine ⟨(c6_resolution_priority engW "a//b\\\\").1 (by decide),
    (c6_resolution_priority engW "nm\x7b\x7bdel\x7d\x7d<<mp>>").2.2.1
      (by decide) (by decide) (by decide),
    (c6_resolution_priority engW "plain").2.2.2.1 (by decide) (by decide) (by decide),
    (c6_resolution_priority engW "plain").2.2.2.2.2 "x" [] (some (fun _ => none))
      (by decide)⟩
